import Mathlib

/-!
Verification of the attack-path expansion and pruning engine of
`modules/analyze/analyzeobjects.go` (function `Analyze` and its helpers).

The embedding is shallow and executable: objects are natural-number handles,
the external object store is a finite structure of lookup functions plus a
finite directed edge list, the working graph is a list-backed labelled
multidigraph with at most one edge per ordered pair, and every phase of
`Analyze` (seeding, round expansion, degree-cap commit, outer trim fixpoint,
node-budget prune, island prune, finalization) is a Lean function mirroring
the Go control flow statement by statement.

Modelling notes:
* Go `float32` accumulated probability is modelled as an exact rational
  (`Frac`, an unreduced numerator/denominator pair) with the same formula
  `acc * p / 100`; the concrete runs below only use probabilities whose
  float32 arithmetic is exact, so no behaviour is changed.
* Go map iteration order is unspecified; lists fix one order.  No theorem
  below depends on a property that only holds for one particular order,
  except where a claim itself speaks about iteration order.
* The unbounded `MaxDepth == -1` loop terminates in Go because the object
  universe is finite; here the loop gets explicit round fuel
  `|objects| + 2·|edgeList| + 1`, an upper bound on the achievable graph
  order plus one, past which the no-growth break must already have fired.
-/

namespace Adalanche

/-- EdgeBitmap: a set of registered edge kinds, here a list of kind ids. -/
abbrev EdgeBitmap := List Nat

/-- Intersect of two edge bitmaps (Go EdgeBitmap.Intersect). -/
def ebInter (a b : EdgeBitmap) : EdgeBitmap :=
  a.filter (fun k => decide (k ∈ b))

/-- Union of two edge bitmaps (used by the working graph AddEdge). -/
def ebUnion (a b : EdgeBitmap) : EdgeBitmap :=
  a ++ b.filter (fun k => decide (k ∉ a))

/-- Distinguished edge kind `EdgeMemberOfGroup = engine.NewEdge("MemberOfGroup")`. -/
def edgeMemberOfGroup : Nat := 0

/-- Well-known SID `windowssecurity.EveryoneSID` (S-1-1-0) as a component list. -/
def everyoneSID : List Nat := [1, 1, 0]

/-- Well-known SID `windowssecurity.AuthenticatedUsersSID` (S-1-5-11). -/
def authenticatedUsersSID : List Nat := [1, 5, 11]

/-- Component accessor `SID.Component(2)`; a missing component reads as 0. -/
def sidComponent2 (s : List Nat) : Nat := s.getD 2 0

/-- Direction of exploration (engine.EdgeDirection). -/
inductive EdgeDirection where
  | In : EdgeDirection
  | Out : EdgeDirection
deriving DecidableEq, Repr

/-- Exact rational value kept as an unreduced numerator/denominator pair
(denominators are positive in every value the engine builds: they are
products of 100s).  This models the real-valued probability arithmetic of
the engine; comparisons cross-multiply, so they agree with the rational
ordering whenever both denominators are positive. -/
structure Frac where
  num : Int
  den : Int
deriving DecidableEq, Repr

/-- The rational 1, the accumulated probability of a seed. -/
def Frac.one : Frac := { num := 1, den := 1 }

/-- Multiplication `a * p / 100` of an accumulated probability by an edge
probability `p ∈ [0..100]`. -/
def Frac.mulP (a : Frac) (p : Nat) : Frac :=
  { num := a.num * (p : Int), den := a.den * 100 }

/-- The threshold `m / 100` for `MinAccumulatedProbability = m`. -/
def pdiv100 (m : Nat) : Frac := { num := (m : Int), den := 100 }

/-- Strict order on fractions by cross-multiplication (valid for the
positive denominators the engine produces). -/
def Frac.ltF (a b : Frac) : Prop := a.num * b.den < b.num * a.den

instance (a b : Frac) : Decidable (a.ltF b) := by
  unfold Frac.ltF; infer_instance

/-- Per-explored-node auxiliary state (Go struct GraphNode: CanExpand,
processRound, accumulatedprobability float32 — modelled as an exact
fraction). -/
structure GraphNode where
  CanExpand : Int
  processRound : Nat
  accumulatedprobability : Frac
deriving DecidableEq, Repr

/-- Side map `extrainfo : map[*engine.Object]*GraphNode`, as an assoc list. -/
abbrev Extra := List (Nat × GraphNode)

/-- Lookup in the extrainfo map; `none` models a nil entry. -/
def lookupExtra (e : Extra) (o : Nat) : Option GraphNode :=
  match e with
  | [] => none
  | (o', gn) :: rest => if o' = o then some gn else lookupExtra rest o

/-- Map write `extrainfo[o] = gn` (replace or append). -/
def insertExtra (e : Extra) (o : Nat) (gn : GraphNode) : Extra :=
  match e with
  | [] => [(o, gn)]
  | (o', gn') :: rest =>
      if o' = o then (o, gn) :: rest else (o', gn') :: insertExtra rest o gn

/-- Read-only adapter onto the external object store: object ids, a type tag,
a SID ([] is the null SID), integer attributes, a global directed edge list
(source, target, kinds) servicing Edges(o, direction) in both directions, and
the per-kind probability callbacks feeding MaxProbability. -/
structure Store where
  objects : List Nat
  otype : Nat → Nat
  sid : Nat → List Nat
  attrInt : Nat → Nat → Option Int
  edgeList : List (Nat × Nat × EdgeBitmap)
  prob : Nat → Nat → Nat → Nat

/-- Edge iterator `o.Edges(direction)`: yields (other endpoint, bitmap). -/
def Store.edgesOf (st : Store) (o : Nat) (d : EdgeDirection) :
    List (Nat × EdgeBitmap) :=
  match d with
  | .In => (st.edgeList.filter (fun e => decide (e.2.1 = o))).map
      (fun e => (e.1, e.2.2))
  | .Out => (st.edgeList.filter (fun e => decide (e.1 = o))).map
      (fun e => (e.2.1, e.2.2))

/-- EdgeBitmap.MaxProbability(src, dst): largest per-kind probability the
bitmap confers on the ordered pair. -/
def Store.maxProbability (st : Store) (b : EdgeBitmap) (s t : Nat) : Nat :=
  b.foldl (fun m k => max m (st.prob k s t)) 0

/-- The working graph `graph.Graph[*engine.Object, engine.EdgeBitmap]`:
node list, at most one labelled edge per ordered pair, node key/value data. -/
structure WGraph where
  nodes : List Nat
  edges : List (Nat × Nat × EdgeBitmap)
  ndata : List (Nat × String × Int)
deriving DecidableEq, Repr

/-- Membership test `pg.HasNode`. -/
def WGraph.hasNode (g : WGraph) (o : Nat) : Bool :=
  decide (o ∈ g.nodes)

/-- Add a node if absent. -/
def WGraph.addNode (g : WGraph) (o : Nat) : WGraph :=
  if o ∈ g.nodes then g else { g with nodes := g.nodes ++ [o] }

/-- Write helper for node data lists. -/
def setData (l : List (Nat × String × Int)) (o : Nat) (k : String) (v : Int) :
    List (Nat × String × Int) :=
  match l with
  | [] => [(o, k, v)]
  | (o', k', v') :: rest =>
      if o' = o ∧ k' = k then (o, k, v) :: rest
      else (o', k', v') :: setData rest o k v

/-- `pg.SetNodeData(o, key, value)`; creates the node when absent (the
seeding phase relies on this). -/
def WGraph.setNodeData (g : WGraph) (o : Nat) (k : String) (v : Int) : WGraph :=
  let g' := g.addNode o
  { g' with ndata := setData g'.ndata o k v }

/-- Node data lookup. -/
def WGraph.nodeData (g : WGraph) (o : Nat) (k : String) : Option Int :=
  match g.ndata.find? (fun d => decide (d.1 = o ∧ d.2.1 = k)) with
  | some d => some d.2.2
  | none => none

/-- Edge write helper: union the bitmap into an existing (s,t) edge, else
append a new edge. -/
def addE (l : List (Nat × Nat × EdgeBitmap)) (s t : Nat) (b : EdgeBitmap) :
    List (Nat × Nat × EdgeBitmap) :=
  match l with
  | [] => [(s, t, b)]
  | (s', t', b') :: rest =>
      if s' = s ∧ t' = t then (s, t, ebUnion b' b) :: rest
      else (s', t', b') :: addE rest s t b

/-- `pg.AddEdge(s, t, bitmap)`: creates endpoints if absent, unions labels. -/
def WGraph.addEdge (g : WGraph) (s t : Nat) (b : EdgeBitmap) : WGraph :=
  let g' := (g.addNode s).addNode t
  { g' with edges := addE g'.edges s t b }

/-- `pg.DeleteNode(o)`: drops the node, all incident edges, and its data. -/
def WGraph.deleteNode (g : WGraph) (o : Nat) : WGraph :=
  { nodes := g.nodes.filter (fun x => decide (x ≠ o)),
    edges := g.edges.filter (fun e => decide (e.1 ≠ o ∧ e.2.1 ≠ o)),
    ndata := g.ndata.filter (fun d => decide (d.1 ≠ o)) }

/-- Node count `pg.Order()`. -/
def WGraph.order (g : WGraph) : Nat := g.nodes.length

/-- Edge count `pg.Size()`. -/
def WGraph.size (g : WGraph) : Nat := g.edges.length

/-- In-degree of a node in the working graph. -/
def WGraph.inDegree (g : WGraph) (n : Nat) : Nat :=
  (g.edges.filter (fun e => decide (e.2.1 = n))).length

/-- Out-degree of a node in the working graph. -/
def WGraph.outDegree (g : WGraph) (n : Nat) : Nat :=
  (g.edges.filter (fun e => decide (e.1 = n))).length

/-- `pg.StartingNodes()`: nodes with in-degree 0. -/
def WGraph.startingNodes (g : WGraph) : List Nat :=
  g.nodes.filter (fun n => decide (g.inDegree n = 0))

/-- `pg.EndingNodes()`: nodes with out-degree 0. -/
def WGraph.endingNodes (g : WGraph) : List Nat :=
  g.nodes.filter (fun n => decide (g.outDegree n = 0))

/-- `pg.Islands()`: nodes with no incident edges at all. -/
def WGraph.islands (g : WGraph) : List Nat :=
  g.nodes.filter (fun n => decide (g.inDegree n = 0 ∧ g.outDegree n = 0))

/-- The empty working graph. -/
def emptyGraph : WGraph := { nodes := [], edges := [], ndata := [] }

/-- AnalyzeOptions (same fields as the Go struct; node filters are predicates
on object ids, `none` models a nil filter / nil object-type map). -/
structure AnalyzeOptions where
  FilterFirst : Nat → Bool
  FilterMiddle : Option (Nat → Bool)
  FilterLast : Option (Nat → Bool)
  ObjectTypesFirst : Option (List Nat)
  ObjectTypesMiddle : Option (List Nat)
  ObjectTypesLast : Option (List Nat)
  EdgesFirst : EdgeBitmap
  EdgesMiddle : EdgeBitmap
  EdgesLast : EdgeBitmap
  MaxDepth : Int
  MaxOutgoingConnections : Int
  Direction : EdgeDirection
  Backlinks : Nat
  MinEdgeProbability : Nat
  MinAccumulatedProbability : Nat
  PruneIslands : Bool
  DontExpandAUEO : Bool
  NodeLimit : Int

/-- Length of a possibly-nil Go map of object types. -/
def olen (t : Option (List Nat)) : Nat :=
  match t with
  | some l => l.length
  | none => 0

/-- ParseQueryFromPOST defaulting block: if EdgesFirst, EdgesMiddle and
EdgesLast are all empty, all three become `engine.AllEdgesBitmap` (the
universe bitmap, passed in as `allEdges`); otherwise nothing changes. -/
def defaultAllEdges (allEdges : EdgeBitmap) (aoo : AnalyzeOptions) :
    AnalyzeOptions :=
  if aoo.EdgesFirst.length = 0 ∧ aoo.EdgesMiddle.length = 0 ∧
      aoo.EdgesLast.length = 0 then
    { aoo with EdgesFirst := allEdges, EdgesMiddle := allEdges,
               EdgesLast := allEdges }
  else aoo

/-- Analysis result (Go AnalysisResults). -/
structure AnalysisResults where
  Graph : WGraph
  Removed : Int

/-- Backlink-rule skip guard, verbatim from the candidate loop of `Analyze`:
skip when the candidate is already in the graph, the round is past the first,
its recorded round plus the backlink window has been reached, and the pair is
not a cross-domain SID match (the final disjunction; `n` is currentobject,
`m` is nextobject). -/
def backlinkSkip (st : Store) (backlinks r : Nat) (found : Bool)
    (stm : Option GraphNode) (n m : Nat) : Bool :=
  found && decide (1 < r) &&
    (match stm with
     | none => false
     | some e => decide (e.processRound + backlinks ≤ r)) &&
    ((st.sid n).isEmpty || (st.sid m).isEmpty ||
      decide (sidComponent2 (st.sid n) ≠ 21) ||
      decide (st.sid n ≠ st.sid m))

/-- Membership test against a possibly-nil detectobjecttypes map: rejects the
type when the map is non-nil and the type is absent. -/
def typeRejects (dt : Option (List Nat)) (ty : Nat) : Bool :=
  match dt with
  | some l => decide (ty ∉ l)
  | none => false

/-- Candidate connection map `newconnectionsmap` keyed by (source, target);
writing an existing pair replaces its bitmap, like a Go map assignment. -/
def insertConn (l : List (Nat × Nat × EdgeBitmap)) (s t : Nat)
    (b : EdgeBitmap) : List (Nat × Nat × EdgeBitmap) :=
  match l with
  | [] => [(s, t, b)]
  | (s', t', b') :: rest =>
      if s' = s ∧ t' = t then (s, t, b) :: rest
      else (s', t', b') :: insertConn rest s t b

/-- State threaded through one node's candidate enumeration: the pending
connection map and the live extrainfo map. -/
structure CandState where
  conns : List (Nat × Nat × EdgeBitmap)
  extra : Extra
deriving Repr

/-- Direction-dependent `MaxProbability` call of the candidate loop:
`(nextobject, currentobject)` when exploring In, `(currentobject,
nextobject)` when exploring Out (`n` is currentobject). -/
def candProb (st : Store) (d : EdgeDirection) (detected : EdgeBitmap)
    (n next : Nat) : Nat :=
  match d with
  | .In => st.maxProbability detected next n
  | .Out => st.maxProbability detected n next

/-- Body of `currentobject.Edges(opts.Direction).Range(...)`: the per-candidate
decision chain of `Analyze`, in source order — active-edge intersection, type
filter, MaxProbability gate, accumulated-probability gate, backlink rule,
FilterMiddle, then recording the connection and (except for pre-seeded nodes
in round 1) writing `extrainfo[nextobject] = {processRound: r+1, acc}`.
`accN` is `ei.accumulatedprobability` of the expanding node `n`, read once at
the start of the node's processing; `g` is the working graph as of the start
of this node's enumeration (commits happen afterwards). -/
def candStep (st : Store) (opts : AnalyzeOptions) (detectedges : EdgeBitmap)
    (detecttypes : Option (List Nat)) (r : Nat) (g : WGraph) (n : Nat)
    (accN : Frac) (cs : CandState) (me : Nat × EdgeBitmap) : CandState :=
  let next := me.1
  let detectededges := ebInter me.2 detectedges
  if detectededges.isEmpty then cs
  else if typeRejects detecttypes (st.otype next) then cs
  else
    let maxprobability := candProb st opts.Direction detectededges n next
    if maxprobability < opts.MinEdgeProbability then cs
    else if (accN.mulP maxprobability).ltF
        (pdiv100 opts.MinAccumulatedProbability) then cs
    else if backlinkSkip st opts.Backlinks r (g.hasNode next)
        (lookupExtra cs.extra next) n next then cs
    else if (match opts.FilterMiddle with
             | some f => !(f next)
             | none => false) then cs
    else
      let conns' :=
        match opts.Direction with
        | .In => insertConn cs.conns next n detectededges
        | .Out => insertConn cs.conns n next detectededges
      let extra' :=
        if r ≠ 1 ∨ lookupExtra cs.extra next = none then
          insertExtra cs.extra next
            { CanExpand := 0, processRound := r + 1,
              accumulatedprobability := accN.mulP maxprobability }
        else cs.extra
      { conns := conns', extra := extra' }

/-- Insertion step of the descending attribute sort used on capped nodes. -/
def insertDescBy (key : Nat × Nat × EdgeBitmap → Int)
    (x : Nat × Nat × EdgeBitmap) :
    List (Nat × Nat × EdgeBitmap) → List (Nat × Nat × EdgeBitmap)
  | [] => [x]
  | y :: ys => if key y ≤ key x then x :: y :: ys
               else y :: insertDescBy key x ys

/-- Descending sort by an integer key (models `sort.Slice` with `iv > jv`
as the less function; the exact order among equal keys is unspecified in Go,
and unused by the theorems below). -/
def sortDescBy (key : Nat × Nat × EdgeBitmap → Int)
    (l : List (Nat × Nat × EdgeBitmap)) : List (Nat × Nat × EdgeBitmap) :=
  l.foldr (insertDescBy key) []

/-- SortBy attribute value of the far endpoint of a pending connection
(`AttrInt` with the ok flag ignored: missing reads as 0). -/
def sortKey (st : Store) (d : EdgeDirection) (attr : Nat)
    (c : Nat × Nat × EdgeBitmap) : Int :=
  match d with
  | .In => (st.attrInt c.1 attr).getD 0
  | .Out => (st.attrInt c.2.1 attr).getD 0

/-- Commit phase after one node's candidate enumeration: add every pending
connection when under `MaxOutgoingConnections` (or the cap is -1); otherwise
commit the MemberOfGroup connections first when they fit, then — only when
the package-level `SortBy` attribute is set — up to the cap of the remaining
connections in descending attribute order, and record the number still
suppressed in `extrainfo[n].CanExpand`. -/
def commitConns (st : Store) (opts : AnalyzeOptions) (sortBy : Option Nat)
    (n : Nat) (ei : GraphNode) (cs : CandState) (g : WGraph) :
    WGraph × Extra :=
  if opts.MaxOutgoingConnections = -1 ∨
      (cs.conns.length : Int) < opts.MaxOutgoingConnections then
    (cs.conns.foldl (fun (g : WGraph) (c : Nat × Nat × EdgeBitmap) => g.addEdge c.1 c.2.1 c.2.2) g, cs.extra)
  else
    let groupcount : Int :=
      ((cs.conns.filter (fun c => decide (edgeMemberOfGroup ∈ c.2.2))).length :
        Int)
    let afterGroups :=
      if groupcount < opts.MaxOutgoingConnections then
        ((cs.conns.filter (fun c => decide (edgeMemberOfGroup ∈ c.2.2))).foldl
            (fun (g : WGraph) (c : Nat × Nat × EdgeBitmap) => g.addEdge c.1 c.2.1 c.2.2) g,
         cs.conns.filter (fun c => decide (edgeMemberOfGroup ∉ c.2.2)),
         groupcount)
      else (g, cs.conns, (0 : Int))
    let g1 := afterGroups.1
    let remaining := afterGroups.2.1
    let added := afterGroups.2.2
    let afterSort :=
      match sortBy with
      | none => (g1, added)
      | some attr =>
          let notadded := sortDescBy (sortKey st opts.Direction attr) remaining
          let k : Nat :=
            min ((opts.MaxOutgoingConnections - added).toNat) notadded.length
          ((notadded.take k).foldl (fun (g : WGraph) (c : Nat × Nat × EdgeBitmap) => g.addEdge c.1 c.2.1 c.2.2) g1,
           added + (k : Int))
    let extra' := insertExtra cs.extra n
      { ei with CanExpand := (remaining.length : Int) - afterSort.2 }
    (afterSort.1, extra')

/-- Processing of one graph node inside a round: skip unless its recorded
processRound is the current round, apply the AU/EO expansion guard, enumerate
candidates, then commit under the degree cap. -/
def processOneNode (st : Store) (opts : AnalyzeOptions) (sortBy : Option Nat)
    (r : Nat) (detectedges : EdgeBitmap) (detecttypes : Option (List Nat))
    (state : WGraph × Extra) (n : Nat) : WGraph × Extra :=
  let g := state.1
  let extra := state.2
  match lookupExtra extra n with
  | none => (g, extra)
  | some ei =>
    if ei.processRound ≠ r then (g, extra)
    else if opts.Direction = .In ∧ opts.DontExpandAUEO ∧
        (st.sid n = everyoneSID ∨ st.sid n = authenticatedUsersSID) then
      (g, extra)
    else
      let cs := (st.edgesOf n opts.Direction).foldl
        (candStep st opts detectedges detecttypes r g n
          ei.accumulatedprobability)
        { conns := [], extra := extra }
      commitConns st opts sortBy n ei cs g

/-- Active edge bitmap for a round: EdgesFirst in round 1, EdgesMiddle from
round 2 onwards. -/
def activeEdges (opts : AnalyzeOptions) (r : Nat) : EdgeBitmap :=
  if r = 1 then opts.EdgesFirst else opts.EdgesMiddle

/-- Active object-type map for a round: ObjectTypesFirst verbatim in round 1;
from round 2 onwards ObjectTypesMiddle when non-empty, else nil. -/
def activeTypes (opts : AnalyzeOptions) (r : Nat) : Option (List Nat) :=
  if r = 1 then opts.ObjectTypesFirst
  else if 0 < olen opts.ObjectTypesMiddle then opts.ObjectTypesMiddle
  else none

/-- One expansion round: process, in snapshot order, every node whose
extrainfo round equals `r` (nodes added mid-round always receive round
`r + 1`, so the snapshot is exhaustive). -/
def roundStep (st : Store) (opts : AnalyzeOptions) (sortBy : Option Nat)
    (r : Nat) (state : WGraph × Extra) : WGraph × Extra :=
  state.1.nodes.foldl
    (processOneNode st opts sortBy r (activeEdges opts r)
      (activeTypes opts r))
    state

/-- Seeding: every FilterFirst match is added to the graph with node data
"target" and, by the inner sweep over all current graph nodes, receives
extrainfo `{processRound: 1, acc: 1}` unless already present. -/
def seedPhase (opts : AnalyzeOptions) (st : Store) : WGraph × Extra :=
  (st.objects.filter opts.FilterFirst).foldl
    (fun ge o =>
      let g := ge.1.setNodeData o "target" 1
      let e := g.nodes.foldl
        (fun e o' =>
          match lookupExtra e o' with
          | some gi =>
              if gi.processRound = 0 then
                insertExtra e o'
                  { CanExpand := 0, processRound := 1,
                    accumulatedprobability := Frac.one }
              else e
          | none =>
              insertExtra e o'
                { CanExpand := 0, processRound := 1,
                  accumulatedprobability := Frac.one })
        ge.2
      (g, e))
    (emptyGraph, [])

/-- Round fuel: MaxDepth when non-negative; for the unbounded `-1` setting an
upper bound on the achievable graph order plus one, past which the no-growth
break below has necessarily fired (every node is a store object or an edge
endpoint, and each continued iteration grows the order). -/
def roundFuel (opts : AnalyzeOptions) (st : Store) : Nat :=
  if opts.MaxDepth = -1 then st.objects.length + 2 * st.edgeList.length + 1
  else opts.MaxDepth.toNat

/-- The round loop of `Analyze`: run rounds from `r` while fuel lasts,
breaking as in the source when a round adds no node. -/
def expandLoop (st : Store) (opts : AnalyzeOptions) (sortBy : Option Nat) :
    Nat → Nat → WGraph × Extra → WGraph × Extra
  | 0, _, state => state
  | fuel + 1, r, state =>
      let n0 := state.1.order
      let state' := roundStep st opts sortBy r state
      if state'.1.order = n0 then state'
      else expandLoop st opts sortBy fuel (r + 1) state'

/-- Whole expansion phase: seeding followed by the round loop from round 1. -/
def expansionPhase (opts : AnalyzeOptions) (sortBy : Option Nat)
    (st : Store) : WGraph × Extra :=
  expandLoop st opts sortBy (roundFuel opts st) 1 (seedPhase opts st)

/-- The outer-node set examined by trim and prune: StartingNodes when the
direction is In, EndingNodes when Out. -/
def outerNodesOf (d : EdgeDirection) (g : WGraph) : List Nat :=
  match d with
  | .In => g.startingNodes
  | .Out => g.endingNodes

/-- Endpoint of an edge that trim examines as the outer node: the source when
the direction is In, the target when Out. -/
def trimEnd (d : EdgeDirection) (e : Nat × Nat × EdgeBitmap) : Nat :=
  match d with
  | .In => e.1
  | .Out => e.2.1

/-- The trim phase's `detectobjecttypes`: ObjectTypesLast when non-empty,
else nil. -/
def detectTypesLast (opts : AnalyzeOptions) : Option (List Nat) :=
  if 0 < olen opts.ObjectTypesLast then opts.ObjectTypesLast else none

/-- Rejection by FilterLast when that filter is set. -/
def filterLastRejects (opts : AnalyzeOptions) (o : Nat) : Bool :=
  match opts.FilterLast with
  | some f => !(f o)
  | none => false

/-- Decision of the trim edge sweep for a single edge: delete its outer
endpoint when the edge label misses EdgesLast, or the node type misses
ObjectTypesLast, or FilterLast rejects it (the three cascaded checks of the
Go loop, each of which deletes and continues). -/
def trimDeletes (st : Store) (opts : AnalyzeOptions) (outer : List Nat)
    (e : Nat × Nat × EdgeBitmap) : Bool :=
  decide (trimEnd opts.Direction e ∈ outer) &&
    (decide ((ebInter opts.EdgesLast e.2.2).length = 0) ||
      typeRejects (detectTypesLast opts) (st.otype (trimEnd opts.Direction e)) ||
      filterLastRejects opts (trimEnd opts.Direction e))

/-- One step of the trim edge sweep, carrying the graph and the removal
counter of the current pass. -/
def trimStep (st : Store) (opts : AnalyzeOptions) (outer : List Nat)
    (acc : WGraph × Nat) (e : Nat × Nat × EdgeBitmap) : WGraph × Nat :=
  if trimDeletes st opts outer e then
    (acc.1.deleteNode (trimEnd opts.Direction e), acc.2 + 1)
  else acc

/-- One pass of the outer trim: sweep a snapshot of the edges against the
outer-node set computed at the start of the pass. -/
def trimPass (st : Store) (opts : AnalyzeOptions) (g : WGraph) :
    WGraph × Nat :=
  g.edges.foldl (trimStep st opts (outerNodesOf opts.Direction g)) (g, 0)

/-- Outer nodes are graph nodes. -/
theorem mem_outerNodesOf {d : EdgeDirection} {g : WGraph} {x : Nat}
    (h : x ∈ outerNodesOf d g) : x ∈ g.nodes := by
  cases d with
  | In => exact (List.mem_filter.mp h).1
  | Out => exact (List.mem_filter.mp h).1

/-- Deleting a node never grows the node list. -/
theorem deleteNode_length_le (g : WGraph) (o : Nat) :
    (g.deleteNode o).nodes.length ≤ g.nodes.length :=
  List.length_filter_le _ _

/-- Deleting a present node strictly shrinks the node list. -/
theorem deleteNode_length_lt (g : WGraph) (o : Nat) (h : o ∈ g.nodes) :
    (g.deleteNode o).nodes.length < g.nodes.length :=
  List.length_filter_lt_length_iff_exists.mpr ⟨o, h, by simp⟩

/-- A firing trim decision names an outer node. -/
theorem trimDeletes_mem_outer {st : Store} {opts : AnalyzeOptions}
    {outer : List Nat} {e : Nat × Nat × EdgeBitmap}
    (h : trimDeletes st opts outer e = true) :
    trimEnd opts.Direction e ∈ outer := by
  have := (Bool.and_eq_true _ _).mp h
  exact of_decide_eq_true this.1

/-- Invariant of the trim edge sweep: the node count never grows, a positive
removal counter witnesses a strict drop, and a zero counter means the graph
is untouched. -/
theorem trimFoldInv (st : Store) (opts : AnalyzeOptions) (outer : List Nat)
    (g0 : WGraph) (houter : ∀ x ∈ outer, x ∈ g0.nodes) :
    ∀ (es : List (Nat × Nat × EdgeBitmap)) (acc : WGraph × Nat),
      acc.1.nodes.length ≤ g0.nodes.length →
      (0 < acc.2 → acc.1.nodes.length < g0.nodes.length) →
      (acc.2 = 0 → acc.1 = g0) →
      (es.foldl (trimStep st opts outer) acc).1.nodes.length ≤
          g0.nodes.length ∧
        (0 < (es.foldl (trimStep st opts outer) acc).2 →
          (es.foldl (trimStep st opts outer) acc).1.nodes.length <
            g0.nodes.length) ∧
        ((es.foldl (trimStep st opts outer) acc).2 = 0 →
          (es.foldl (trimStep st opts outer) acc).1 = g0) := by
  intro es
  induction es with
  | nil => intro acc h1 h2 h3; exact ⟨h1, h2, h3⟩
  | cons e rest ih =>
    intro acc h1 h2 h3
    simp only [List.foldl_cons]
    by_cases hdel : trimDeletes st opts outer e = true
    · have hen : trimEnd opts.Direction e ∈ outer := trimDeletes_mem_outer hdel
      have hstep : trimStep st opts outer acc e =
          (acc.1.deleteNode (trimEnd opts.Direction e), acc.2 + 1) := by
        simp [trimStep, hdel]
      rw [hstep]
      apply ih
      · exact le_trans (deleteNode_length_le _ _) h1
      · intro _
        rcases Nat.eq_zero_or_pos acc.2 with hz | hp
        · have hacc := h3 hz
          have : trimEnd opts.Direction e ∈ acc.1.nodes := by
            rw [hacc]; exact houter _ hen
          calc (acc.1.deleteNode (trimEnd opts.Direction e)).nodes.length
              < acc.1.nodes.length := deleteNode_length_lt _ _ this
            _ ≤ g0.nodes.length := h1
        · exact lt_of_le_of_lt (deleteNode_length_le _ _) (h2 hp)
      · intro hz; omega
    · have hstep : trimStep st opts outer acc e = acc := by
        simp [trimStep, hdel]
      rw [hstep]
      exact ih acc h1 h2 h3

/-- One pass never grows the graph. -/
theorem trimPass_le (st : Store) (opts : AnalyzeOptions) (g : WGraph) :
    (trimPass st opts g).1.nodes.length ≤ g.nodes.length :=
  (trimFoldInv st opts _ g (fun _ hx => mem_outerNodesOf hx) g.edges (g, 0)
    le_rfl (by intro h; omega) (fun _ => rfl)).1

/-- A pass that removed something strictly shrank the graph. -/
theorem trimPass_lt (st : Store) (opts : AnalyzeOptions) (g : WGraph)
    (h : (trimPass st opts g).2 ≠ 0) :
    (trimPass st opts g).1.nodes.length < g.nodes.length :=
  (trimFoldInv st opts _ g (fun _ hx => mem_outerNodesOf hx) g.edges (g, 0)
    le_rfl (by intro h; omega) (fun _ => rfl)).2.1 (Nat.pos_of_ne_zero h)

/-- A pass that removed nothing left the graph untouched. -/
theorem trimPass_zero (st : Store) (opts : AnalyzeOptions) (g : WGraph)
    (h : (trimPass st opts g).2 = 0) : (trimPass st opts g).1 = g :=
  (trimFoldInv st opts _ g (fun _ hx => mem_outerNodesOf hx) g.edges (g, 0)
    le_rfl (by intro h; omega) (fun _ => rfl)).2.2 h

/-- Fuelled form of the outer trim fixpoint loop: repeat passes until one
removes nothing.  Structural recursion so that concrete runs reduce; the
fuel is immaterial whenever it exceeds the node count, because every
continuing pass strictly shrinks the graph (`trimPass_lt`). -/
def trimLoopF (st : Store) (opts : AnalyzeOptions) :
    Nat → WGraph → WGraph
  | 0, g => g
  | fuel + 1, g =>
      if (trimPass st opts g).2 = 0 then (trimPass st opts g).1
      else trimLoopF st opts fuel (trimPass st opts g).1

/-- The outer trim fixpoint loop of `Analyze`, with always-sufficient fuel. -/
def trimLoop (st : Store) (opts : AnalyzeOptions) (g : WGraph) : WGraph :=
  trimLoopF st opts (g.nodes.length + 1) g

/-- With fuel exceeding the node count the trim loop really reaches the
fixpoint: one more pass on its output removes nothing and changes nothing. -/
theorem trimLoopF_fix (st : Store) (opts : AnalyzeOptions) :
    ∀ (fuel : Nat) (g : WGraph), g.nodes.length < fuel →
      trimPass st opts (trimLoopF st opts fuel g) =
        (trimLoopF st opts fuel g, 0) := by
  intro fuel
  induction fuel with
  | zero => intro g h; omega
  | succ f ih =>
    intro g h
    rw [trimLoopF]
    by_cases hz : (trimPass st opts g).2 = 0
    · rw [if_pos hz]
      have hg := trimPass_zero st opts g hz
      rw [hg]
      exact Prod.ext hg hz
    · rw [if_neg hz]
      apply ih
      have := trimPass_lt st opts g hz
      omega

/-- The trim loop of `Analyze` reaches the fixpoint. -/
theorem trimLoop_fix (st : Store) (opts : AnalyzeOptions) (g : WGraph) :
    trimPass st opts (trimLoop st opts g) = (trimLoop st opts g, 0) :=
  trimLoopF_fix st opts (g.nodes.length + 1) g (Nat.lt_succ_self _)

/-- Mark every current outer node with node data "source". -/
def markSources (opts : AnalyzeOptions) (g : WGraph) : WGraph :=
  (outerNodesOf opts.Direction g).foldl
    (fun g o => g.setNodeData o "source" 1) g

/-- Recorded process round of a node; the engine only reads this for graph
nodes, which always carry extrainfo (a missing entry reads as round 0). -/
def roundOfD (extra : Extra) (o : Nat) : Nat :=
  match lookupExtra extra o with
  | some gi => gi.processRound
  | none => 0

/-- Inner sweep of one node-budget prune round: walk the outer-node snapshot,
delete every node sitting at the maximum round, and stop as soon as the
remaining-to-remove counter hits zero. -/
def pruneScan (extra : Extra) (maxr : Nat) :
    List Nat → WGraph → Nat → Nat → WGraph × Nat
  | [], g, _, rem => (g, rem)
  | o :: rest, g, left, rem =>
      if roundOfD extra o = maxr then
        if left - 1 = 0 then (g.deleteNode o, rem + 1)
        else pruneScan extra maxr rest (g.deleteNode o) (left - 1) (rem + 1)
      else pruneScan extra maxr rest g left rem

/-- One round of the node-budget prune: compute the outer nodes and their
maximum recorded round, then sweep. -/
def prunePass (extra : Extra) (d : EdgeDirection) (g : WGraph) (left : Nat) :
    WGraph × Nat :=
  pruneScan extra
    ((outerNodesOf d g).foldl (fun m o => max m (roundOfD extra o)) 0)
    (outerNodesOf d g) g left 0

/-- Fuelled form of the node-budget prune loop: repeat rounds until the
excess is gone, warning (second component true) when a round removes
nothing.  Fuel above `left` is always sufficient, because every continuing
round removes at least one node and so shrinks `left`. -/
def pruneLoopF (extra : Extra) (d : EdgeDirection) :
    Nat → WGraph → Nat → WGraph × Bool
  | 0, g, _ => (g, false)
  | fuel + 1, g, left =>
      if left = 0 then (g, false)
      else
        if (prunePass extra d g left).2 = 0 then
          ((prunePass extra d g left).1, true)
        else
          pruneLoopF extra d fuel (prunePass extra d g left).1
            (left - (prunePass extra d g left).2)

/-- The node-budget prune loop of `Analyze`, with always-sufficient fuel. -/
def pruneLoop (extra : Extra) (d : EdgeDirection) (g : WGraph)
    (left : Nat) : WGraph × Bool :=
  pruneLoopF extra d (left + 1) g left

/-- The full engine `Analyze`: expansion, trim fixpoint, source marking,
`totalnodes` capture, node-budget prune, island prune, second source marking,
CanExpand publication, and the Removed count. -/
def Analyze (opts : AnalyzeOptions) (sortBy : Option Nat) (st : Store) :
    AnalysisResults :=
  let ge := expansionPhase opts sortBy st
  let g2 := trimLoop st opts ge.1
  let g3 := markSources opts g2
  let totalnodes : Int := (g3.order : Int)
  let g4 :=
    if 0 < opts.NodeLimit ∧ 0 < (g3.order : Int) - opts.NodeLimit then
      (pruneLoop ge.2 opts.Direction g3
        ((g3.order : Int) - opts.NodeLimit).toNat).1
    else g3
  let g5 :=
    if opts.PruneIslands then g4.islands.foldl WGraph.deleteNode g4 else g4
  let g6 := markSources opts g5
  let g7 := ge.2.foldl
    (fun g p =>
      if g.hasNode p.1 ∧ 0 < p.2.CanExpand then
        g.setNodeData p.1 "canexpand" p.2.CanExpand
      else g)
    g6
  { Graph := g7, Removed := totalnodes - (g7.order : Int) }

/-- Graph order right after the trim fixpoint and first source marking —
the point where the source captures `totalnodes`. -/
def afterTrimOrder (opts : AnalyzeOptions) (sortBy : Option Nat)
    (st : Store) : Nat :=
  (markSources opts (trimLoop st opts (expansionPhase opts sortBy st).1)).order

/-! ### Helper lemmas and fixtures -/

/-- Writing an extrainfo entry makes it the looked-up value. -/
theorem lookupExtra_insert (e : Extra) (o : Nat) (gn : GraphNode) :
    lookupExtra (insertExtra e o gn) o = some gn := by
  induction e with
  | nil => simp [insertExtra, lookupExtra]
  | cons p rest ih =>
    by_cases h : p.1 = o
    · simp [insertExtra, lookupExtra, h]
    · simp only [insertExtra, lookupExtra]
      rw [if_neg h]
      simpa [lookupExtra, h] using ih

/-- Baseline options fixture shared by the concrete runs: In direction,
everything unbounded and unfiltered, single-target FilterFirst on `tgt`,
edge policy `eb` in all three tiers. -/
def baseOptions (tgt : Nat) (eb : EdgeBitmap) : AnalyzeOptions :=
  { FilterFirst := fun o => decide (o = tgt), FilterMiddle := none,
    FilterLast := none, ObjectTypesFirst := none, ObjectTypesMiddle := none,
    ObjectTypesLast := none, EdgesFirst := eb, EdgesMiddle := eb,
    EdgesLast := eb, MaxDepth := -1, MaxOutgoingConnections := -1,
    Direction := .In, Backlinks := 0, MinEdgeProbability := 0,
    MinAccumulatedProbability := 0, PruneIslands := false,
    DontExpandAUEO := true, NodeLimit := 0 }

/-! ### Claim theorems -/

/-- C9: if EdgesFirst, EdgesMiddle and EdgesLast are all empty at entry, all
three default to the universe bitmap; if at least one is non-empty, none of
them is changed. -/
theorem edges_default_to_universe (u : EdgeBitmap) (aoo : AnalyzeOptions) :
    (aoo.EdgesFirst.length = 0 → aoo.EdgesMiddle.length = 0 →
      aoo.EdgesLast.length = 0 →
      (defaultAllEdges u aoo).EdgesFirst = u ∧
        (defaultAllEdges u aoo).EdgesMiddle = u ∧
        (defaultAllEdges u aoo).EdgesLast = u) ∧
    (¬ (aoo.EdgesFirst.length = 0 ∧ aoo.EdgesMiddle.length = 0 ∧
        aoo.EdgesLast.length = 0) →
      defaultAllEdges u aoo = aoo) := by
  constructor
  · intro h1 h2 h3
    simp [defaultAllEdges, h1, h2, h3]
  · intro h
    simp only [defaultAllEdges, if_neg h]

/-- Witness for C9: concrete defaulting run with all three bitmaps empty. -/
theorem edges_default_to_universe_witness :
    (defaultAllEdges [3, 4] (baseOptions 0 [])).EdgesFirst = [3, 4] ∧
      (defaultAllEdges [3, 4] (baseOptions 0 [])).EdgesMiddle = [3, 4] ∧
      (defaultAllEdges [3, 4] (baseOptions 0 [])).EdgesLast = [3, 4] :=
  (edges_default_to_universe [3, 4] (baseOptions 0 [])).1 rfl rfl rfl

/-- C5: with the candidate `m` already in the graph (found) and carrying a
NodeState, the backlink-rule guard fires exactly when the round is past 1,
the recorded round plus Backlinks has reached the current round, and the
pair is not a cross-domain SID match (both SIDs non-null, SID component 2
equal to 21, equal SIDs). -/
theorem backlink_skip_characterization (st : Store) (backlinks r : Nat)
    (n m : Nat) (e : GraphNode) :
    backlinkSkip st backlinks r true (some e) n m = true ↔
      (1 < r ∧ e.processRound + backlinks ≤ r ∧
        ¬ (st.sid n ≠ [] ∧ st.sid m ≠ [] ∧
            sidComponent2 (st.sid m) = 21 ∧ st.sid n = st.sid m)) := by
  unfold backlinkSkip
  simp only [Bool.true_and, Bool.and_eq_true, Bool.or_eq_true,
    decide_eq_true_eq, List.isEmpty_iff]
  by_cases heq : st.sid n = st.sid m
  · rw [heq]
    constructor
    · rintro ⟨⟨hr, hb⟩, hsid⟩
      refine ⟨hr, hb, ?_⟩
      rintro ⟨hn, _, hc, _⟩
      rcases hsid with ((h | h) | h) | h
      · exact hn h
      · exact hn h
      · exact h hc
      · exact h rfl
    · rintro ⟨hr, hb, hncd⟩
      refine ⟨⟨hr, hb⟩, ?_⟩
      by_cases hm : st.sid m = []
      · exact Or.inl (Or.inl (Or.inl hm))
      by_cases hc : sidComponent2 (st.sid m) = 21
      · exact absurd ⟨hm, hm, hc, rfl⟩ hncd
      · exact Or.inl (Or.inr hc)
  · constructor
    · rintro ⟨⟨hr, hb⟩, _⟩
      exact ⟨hr, hb, fun hcd => heq hcd.2.2.2⟩
    · rintro ⟨hr, hb, _⟩
      exact ⟨⟨hr, hb⟩, Or.inr heq⟩

/-- C7: with Direction=In and DontExpandAUEO, a node whose SID is the
Everyone or Authenticated Users SID is never expanded — processing it in any
round changes neither the graph nor the NodeState map, so no candidate edge
is ever contributed by it (while nothing stops it from appearing as the far
endpoint of another node's candidate edge). -/
theorem aueo_guard_skips_expansion (st : Store) (opts : AnalyzeOptions)
    (sortBy : Option Nat) (r : Nat) (de : EdgeBitmap)
    (dt : Option (List Nat)) (g : WGraph) (extra : Extra) (n : Nat)
    (hdir : opts.Direction = .In) (hflag : opts.DontExpandAUEO = true)
    (hsid : st.sid n = everyoneSID ∨ st.sid n = authenticatedUsersSID) :
    processOneNode st opts sortBy r de dt (g, extra) n = (g, extra) := by
  have hsid' : (st.sid n = everyoneSID ∨ st.sid n = authenticatedUsersSID) =
      True := eq_true hsid
  unfold processOneNode
  cases h : lookupExtra extra n with
  | none => simp [h]
  | some ei =>
    by_cases hr : ei.processRound = r
    · simp [h, hr, hdir, hflag, hsid']
    · simp [h, hr]

/-- Store for the C8 scenario: chain A(13) → B(12) → C(11) → T(10) with one
edge kind 0 of probability 100. -/
def chainStore : Store :=
  { objects := [10, 11, 12, 13], otype := fun _ => 0, sid := fun _ => [],
    attrInt := fun _ _ => none,
    edgeList := [(13, 12, [0]), (12, 11, [0]), (11, 10, [0])],
    prob := fun _ _ _ => 100 }

/-- Options for the C8 scenario: targets={T}, Direction=In, MaxDepth=2,
all-edges policy. -/
def chainOpts : AnalyzeOptions :=
  { baseOptions 10 [0] with MaxDepth := 2 }

/-- C8: on the chain A→B→C→T with targets={T}, Direction=In, MaxDepth=2 and
the all-edges policy, Analyze yields exactly the nodes {T, C, B} (A absent),
exactly the edges {C→T, B→C}, and NodeState rounds T=1, C=2, B=3
(T=10, C=11, B=12, A=13). -/
theorem linear_chain_depth_cap_scenario :
    (Analyze chainOpts none chainStore).Graph.nodes = [10, 11, 12] ∧
      13 ∉ (Analyze chainOpts none chainStore).Graph.nodes ∧
      (Analyze chainOpts none chainStore).Graph.edges =
        [(11, 10, [0]), (12, 11, [0])] ∧
      (lookupExtra (expansionPhase chainOpts none chainStore).2 10).map
          GraphNode.processRound = some 1 ∧
      (lookupExtra (expansionPhase chainOpts none chainStore).2 11).map
          GraphNode.processRound = some 2 ∧
      (lookupExtra (expansionPhase chainOpts none chainStore).2 12).map
          GraphNode.processRound = some 3 := by
  decide

/-- Store for the C1 counterexample: T=0 is the target; A=1 and C=2 both
reach T with probability 100; A also reaches C with probability 50. -/
def overwriteStore : Store :=
  { objects := [0, 1, 2], otype := fun _ => 0, sid := fun _ => [],
    attrInt := fun _ _ => none,
    edgeList := [(1, 0, [5]), (2, 0, [5]), (1, 2, [5])],
    prob := fun _ s t => if s = 1 ∧ t = 2 then 50 else 100 }

/-- Options for the C1 counterexample: Backlinks=1 keeps the round-2 revisit
of A inside the backlink window, so the candidate edge A→C is accepted. -/
def overwriteOpts : AnalyzeOptions :=
  { baseOptions 0 [5] with Backlinks := 1 }

/-- Counterexample to C1: node A(=1) is discovered in round 1 with state
{round 2, acc 1}; in round 2 the accepted candidate edge A→C (committed to
the graph, as the edge-set conjunct shows) overwrites A's state with
{round 3, acc 1/2} — both processRound and accumulatedProbability change. -/
theorem candidate_state_overwritten_ce :
    lookupExtra (roundStep overwriteStore overwriteOpts none 1
        (seedPhase overwriteOpts overwriteStore)).2 1 =
      some { CanExpand := 0, processRound := 2,
             accumulatedprobability := { num := 100, den := 100 } } ∧
      lookupExtra (roundStep overwriteStore overwriteOpts none 2
          (roundStep overwriteStore overwriteOpts none 1
            (seedPhase overwriteOpts overwriteStore))).2 1 =
        some { CanExpand := 0, processRound := 3,
               accumulatedprobability := { num := 5000, den := 10000 } } ∧
      (1, 2, [5]) ∈ (roundStep overwriteStore overwriteOpts none 2
          (roundStep overwriteStore overwriteOpts none 1
            (seedPhase overwriteOpts overwriteStore))).1.edges ∧
      (2 : Nat) ≠ 3 ∧
      Frac.ltF { num := 5000, den := 10000 } { num := 100, den := 100 } := by
  decide

/-- C1 (amended): how candidate acceptance writes NodeState.  When every
acceptance gate passes, a pre-existing state of the candidate `next` is
preserved only in round 1; in every round r ≠ 1 the engine unconditionally
writes `state[next] = {round: r+1, acc: accN·p/100}` — overwriting any
pre-existing state, so the discovery-path values are recomputed on accepted
later visits (the `currentRound != 1 || extrainfo[nextobject] == nil`
branch of the source). -/
theorem candidate_state_write_rule (st : Store) (opts : AnalyzeOptions)
    (detectedges : EdgeBitmap) (detecttypes : Option (List Nat)) (r : Nat)
    (g : WGraph) (n : Nat) (accN : Frac) (cs : CandState) (next : Nat)
    (eb : EdgeBitmap)
    (h1 : (ebInter eb detectedges).isEmpty = false)
    (h2 : typeRejects detecttypes (st.otype next) = false)
    (h3 : ¬ candProb st opts.Direction (ebInter eb detectedges) n next <
        opts.MinEdgeProbability)
    (h4 : ¬ (accN.mulP (candProb st opts.Direction (ebInter eb detectedges)
        n next)).ltF (pdiv100 opts.MinAccumulatedProbability))
    (h5 : backlinkSkip st opts.Backlinks r (g.hasNode next)
        (lookupExtra cs.extra next) n next = false)
    (h6 : (match opts.FilterMiddle with
           | some f => !(f next)
           | none => false) = false) :
    (r ≠ 1 →
      lookupExtra
          (candStep st opts detectedges detecttypes r g n accN cs
            (next, eb)).extra next =
        some { CanExpand := 0, processRound := r + 1,
               accumulatedprobability :=
                 accN.mulP (candProb st opts.Direction
                   (ebInter eb detectedges) n next) }) ∧
    (r = 1 → lookupExtra cs.extra next ≠ none →
      (candStep st opts detectedges detecttypes r g n accN cs
        (next, eb)).extra = cs.extra) := by
  constructor
  · intro hr
    simp [candStep, h1, h2, h3, h4, h5, h6, hr, lookupExtra_insert]
  · intro hr hne
    subst hr
    simp only [candStep, h1, h2, h3, h4, h6, hne, Bool.false_eq_true,
      if_false, if_neg h3, if_neg h4]
    split
    · rfl
    · simp [hne]

/-- Store for the C2 scenario: node 0 with 5 group-membership candidates
(1..5, kind 0 = MemberOfGroup) and 10 non-group candidates (6..15, kind 1),
all probability 100; attribute 7 of object i reads i (the SortBy key). -/
def capStore : Store :=
  { objects := List.range 16, otype := fun _ => 0, sid := fun _ => [],
    attrInt := fun o a => if a = 7 then some (o : Int) else none,
    edgeList :=
      [(1, 0, [0]), (2, 0, [0]), (3, 0, [0]), (4, 0, [0]), (5, 0, [0]),
       (6, 0, [1]), (7, 0, [1]), (8, 0, [1]), (9, 0, [1]), (10, 0, [1]),
       (11, 0, [1]), (12, 0, [1]), (13, 0, [1]), (14, 0, [1]),
       (15, 0, [1])],
    prob := fun _ _ _ => 100 }

/-- Options for the C2 scenario: MaxOutgoingConnections=6, one round. -/
def capOpts : AnalyzeOptions :=
  { baseOptions 0 [0, 1] with MaxDepth := 1, MaxOutgoingConnections := 6 }

set_option maxRecDepth 4000 in
/-- Counterexample to C2: in the 5-group/10-non-group scenario with cap 6
and SortBy set, the published "canexpand" node data of n is 4 — the
post-group-deletion candidate count (10) minus the committed count (6) —
not 9 (= 15 − 6) as claimed; and with SortBy unset only the 5 group edges
are committed, not 6. -/
theorem degree_cap_canexpand_ce :
    (Analyze capOpts (some 7) capStore).Graph.nodeData 0 "canexpand" =
        some 4 ∧
      (some (4 : Int) ≠ some 9) ∧
      (Analyze capOpts none capStore).Graph.size = 5 ∧
      (5 : Nat) ≠ 6 := by
  decide

set_option maxRecDepth 4000 in
/-- C2 (amended): with SortBy set the 5 group edges plus exactly one
additional candidate — the maximal one under SortBy (node 15) — are
committed and "canexpand" reads 4 (the candidate count left after group
deletion, 10, minus the committed count 6); with SortBy unset only the 5
group edges are committed and "canexpand" reads 5. -/
theorem degree_cap_scenario_amended :
    (Analyze capOpts (some 7) capStore).Graph.edges =
        [(1, 0, [0]), (2, 0, [0]), (3, 0, [0]), (4, 0, [0]), (5, 0, [0]),
          (15, 0, [1])] ∧
      (Analyze capOpts (some 7) capStore).Graph.nodeData 0 "canexpand" =
        some 4 ∧
      (Analyze capOpts none capStore).Graph.edges =
        [(1, 0, [0]), (2, 0, [0]), (3, 0, [0]), (4, 0, [0]), (5, 0, [0])] ∧
      (Analyze capOpts none capStore).Graph.nodeData 0 "canexpand" =
        some 5 := by
  decide

/-- Store for the C3 counterexample: target T=20 reached by A=21 over kind
0; EdgesLast=[1] in the options makes the trim delete A. -/
def trimCountStore : Store :=
  { objects := [20, 21], otype := fun _ => 0, sid := fun _ => [],
    attrInt := fun _ _ => none, edgeList := [(21, 20, [0])],
    prob := fun _ _ _ => 100 }

/-- Options for the C3 counterexample: all-edges expansion on kind 0 but
EdgesLast only matches kind 1, so the outer trim removes A. -/
def trimCountOpts : AnalyzeOptions :=
  { baseOptions 20 [0] with EdgesLast := [1] }

/-- Counterexample to C3: expansion ends with 2 nodes, the trim deletes one,
the final graph has 1 node, yet Removed = 0 — not 2 − 1 = 1 as the claim
computes it, because `totalnodes` is captured only after the trim. -/
theorem removed_count_ce :
    (expansionPhase trimCountOpts none trimCountStore).1.order = 2 ∧
      (Analyze trimCountOpts none trimCountStore).Graph.order = 1 ∧
      (Analyze trimCountOpts none trimCountStore).Removed = 0 ∧
      (0 : Int) ≠ 2 - 1 := by
  decide

/-- C3 (amended): Removed equals the graph order right after the trim
fixpoint (when `totalnodes` is captured) minus the final order — it
accounts for the node-budget prune and the island prune, but not for the
outer-layer trim and not for expansion. -/
theorem removed_eq_afterTrim_sub_final (opts : AnalyzeOptions)
    (sortBy : Option Nat) (st : Store) :
    (Analyze opts sortBy st).Removed =
      (afterTrimOrder opts sortBy st : Int) -
        ((Analyze opts sortBy st).Graph.order : Int) := rfl

/-- Minimal store for gate-passing witnesses. -/
def probeStore : Store :=
  { objects := [], otype := fun _ => 0, sid := fun _ => [],
    attrInt := fun _ _ => none, edgeList := [], prob := fun _ _ _ => 100 }

/-- Witness for the amended C1: a concrete accepted candidate in round 2
gets state {round 3, acc 100/100} written. -/
theorem candidate_state_write_rule_witness :
    lookupExtra
        (candStep probeStore (baseOptions 0 [0]) [0] none 2 emptyGraph 3
          Frac.one { conns := [], extra := [] } (7, [0])).extra 7 =
      some { CanExpand := 0, processRound := 3,
             accumulatedprobability := { num := 100, den := 100 } } :=
  (candidate_state_write_rule probeStore (baseOptions 0 [0]) [0] none 2
    emptyGraph 3 Frac.one { conns := [], extra := [] } 7 [0] (by decide)
    (by decide) (by decide) (by decide) (by decide) (by decide)).1
    (by decide)

/-- The trim sweep's removal counter never decreases. -/
theorem trimFold_counter_le (st : Store) (opts : AnalyzeOptions)
    (outer : List Nat) :
    ∀ (es : List (Nat × Nat × EdgeBitmap)) (acc : WGraph × Nat),
      acc.2 ≤ (es.foldl (trimStep st opts outer) acc).2 := by
  intro es
  induction es with
  | nil => intro acc; exact le_rfl
  | cons e rest ih =>
    intro acc
    simp only [List.foldl_cons]
    refine le_trans ?_ (ih (trimStep st opts outer acc e))
    unfold trimStep
    split
    · exact Nat.le_succ _
    · exact le_rfl

/-- A trim sweep that left the counter unchanged fired on no edge. -/
theorem trimFold_zero (st : Store) (opts : AnalyzeOptions)
    (outer : List Nat) :
    ∀ (es : List (Nat × Nat × EdgeBitmap)) (acc : WGraph × Nat),
      (es.foldl (trimStep st opts outer) acc).2 = acc.2 →
      ∀ e ∈ es, trimDeletes st opts outer e = false := by
  intro es
  induction es with
  | nil => intro acc _ e he; cases he
  | cons e0 rest ih =>
    intro acc h e he
    rw [List.foldl_cons] at h
    have hle := trimFold_counter_le st opts outer rest
      (trimStep st opts outer acc e0)
    by_cases hdel : trimDeletes st opts outer e0 = true
    · exfalso
      have hstep : (trimStep st opts outer acc e0).2 = acc.2 + 1 := by
        unfold trimStep; rw [if_pos hdel]
      omega
    · rcases List.mem_cons.mp he with rfl | hmem
      · exact Bool.eq_false_iff.mpr hdel
      · refine ih (trimStep st opts outer acc e0) ?_ e hmem
        have hstep : (trimStep st opts outer acc e0).2 = acc.2 := by
          unfold trimStep; rw [if_neg hdel]
        omega

/-- C4: at the outer-trim fixpoint, every edge whose trim endpoint is an
outer node passes all three last-tier checks: its label meets EdgesLast,
the endpoint's type is in ObjectTypesLast whenever that set is non-empty,
and FilterLast accepts the endpoint whenever it is set. -/
theorem trim_fixpoint_outer_ok (st : Store) (opts : AnalyzeOptions)
    (g : WGraph) :
    ∀ e ∈ (trimLoop st opts g).edges,
      trimEnd opts.Direction e ∈
          outerNodesOf opts.Direction (trimLoop st opts g) →
      (ebInter opts.EdgesLast e.2.2).length ≠ 0 ∧
        (∀ l, opts.ObjectTypesLast = some l → l ≠ [] →
          st.otype (trimEnd opts.Direction e) ∈ l) ∧
        (∀ f, opts.FilterLast = some f →
          f (trimEnd opts.Direction e) = true) := by
  intro e he hout
  have hzero : (trimPass st opts (trimLoop st opts g)).2 = 0 := by
    rw [trimLoop_fix st opts g]
  have hdel : trimDeletes st opts
      (outerNodesOf opts.Direction (trimLoop st opts g)) e = false :=
    trimFold_zero st opts _ (trimLoop st opts g).edges
      ((trimLoop st opts g), 0) hzero e he
  unfold trimDeletes at hdel
  rw [decide_eq_true hout, Bool.true_and] at hdel
  have hsplit := hdel
  simp only [Bool.or_eq_false_iff] at hsplit
  obtain ⟨⟨hA, hB⟩, hC⟩ := hsplit
  refine ⟨?_, ?_, ?_⟩
  · exact of_decide_eq_false hA
  · intro l hl hlne
    have hdt : detectTypesLast opts = some l := by
      have hpos : 0 < l.length := List.length_pos.mpr hlne
      unfold detectTypesLast olen
      rw [hl]
      simp [hpos]
    unfold typeRejects at hB
    rw [hdt] at hB
    have := of_decide_eq_false hB
    exact not_not.mp this
  · intro f hf
    unfold filterLastRejects at hC
    rw [hf] at hC
    simpa using hC

/-- Fixture graph for the C4 witness: one outer node 1 feeding node 0. -/
def outerWitnessGraph : WGraph :=
  { nodes := [0, 1], edges := [(1, 0, [0])], ndata := [] }

/-- Witness for C4: on a concrete post-trim graph the surviving outer edge
of node 1 satisfies all three last-tier conditions. -/
theorem trim_fixpoint_outer_ok_witness :
    (ebInter (baseOptions 0 [0]).EdgesLast [0]).length ≠ 0 ∧
      (∀ l, (baseOptions 0 [0]).ObjectTypesLast = some l → l ≠ [] →
        probeStore.otype 1 ∈ l) ∧
      (∀ f, (baseOptions 0 [0]).FilterLast = some f → f 1 = true) :=
  trim_fixpoint_outer_ok probeStore (baseOptions 0 [0]) outerWitnessGraph
    (1, 0, [0]) (by decide) (by decide)

/-- The trim sweep only removes edges, never adds them. -/
theorem trimFold_edges_subset (st : Store) (opts : AnalyzeOptions)
    (outer : List Nat) :
    ∀ (es : List (Nat × Nat × EdgeBitmap)) (acc : WGraph × Nat),
      (es.foldl (trimStep st opts outer) acc).1.edges ⊆ acc.1.edges := by
  intro es
  induction es with
  | nil => intro acc; exact fun x hx => hx
  | cons e rest ih =>
    intro acc
    simp only [List.foldl_cons]
    refine List.Subset.trans (ih (trimStep st opts outer acc e)) ?_
    unfold trimStep
    split
    · exact fun x hx => (List.mem_filter.mp hx).1
    · exact fun x hx => hx

/-- The trim sweep never deletes a node that is no edge's trim endpoint. -/
theorem trimFold_keeps_node (st : Store) (opts : AnalyzeOptions)
    (outer : List Nat) (x : Nat) :
    ∀ (es : List (Nat × Nat × EdgeBitmap)) (acc : WGraph × Nat),
      x ∈ acc.1.nodes → (∀ e ∈ es, trimEnd opts.Direction e ≠ x) →
      x ∈ (es.foldl (trimStep st opts outer) acc).1.nodes := by
  intro es
  induction es with
  | nil => intro acc hx _; exact hx
  | cons e rest ih =>
    intro acc hx hno
    simp only [List.foldl_cons]
    refine ih (trimStep st opts outer acc e) ?_
      (fun e2 he2 => hno e2 (List.mem_cons_of_mem e he2))
    unfold trimStep
    split
    · exact List.mem_filter.mpr
        ⟨hx, decide_eq_true (Ne.symm (hno e (List.mem_cons_self e rest)))⟩
    · exact hx

/-- An edge incident to neither endpoint of interest has a different trim
endpoint. -/
theorem trimEnd_ne (d : EdgeDirection) (e : Nat × Nat × EdgeBitmap) (x : Nat)
    (h : e.1 ≠ x ∧ e.2.1 ≠ x) : trimEnd d e ≠ x := by
  cases d
  · exact h.1
  · exact h.2

/-- Over any fuel, the trim loop keeps a node that has no incident edges. -/
theorem trimLoopF_keeps (st : Store) (opts : AnalyzeOptions) :
    ∀ (fuel : Nat) (g : WGraph) (x : Nat), x ∈ g.nodes →
      (∀ e ∈ g.edges, e.1 ≠ x ∧ e.2.1 ≠ x) →
      x ∈ (trimLoopF st opts fuel g).nodes := by
  intro fuel
  induction fuel with
  | zero => intro g x hx _; exact hx
  | succ f ih =>
    intro g x hx hno
    have hkx : x ∈ (trimPass st opts g).1.nodes :=
      trimFold_keeps_node st opts _ x g.edges (g, 0) hx
        (fun e he => trimEnd_ne _ e x (hno e he))
    have hsub : (trimPass st opts g).1.edges ⊆ g.edges :=
      trimFold_edges_subset st opts _ g.edges (g, 0)
    rw [trimLoopF]
    split
    · exact hkx
    · exact ih (trimPass st opts g).1 x hkx (fun e he => hno e (hsub he))

/-- C10: a node with no incident edges when the trim phase starts is never
deleted by the trim fixpoint — trim candidates are only reached through
edge iteration — even when ObjectTypesLast excludes its type or FilterLast
rejects it. -/
theorem trim_keeps_edgeless_nodes (st : Store) (opts : AnalyzeOptions)
    (g : WGraph) (x : Nat) (hx : x ∈ g.nodes)
    (hno : ∀ e ∈ g.edges, e.1 ≠ x ∧ e.2.1 ≠ x) :
    x ∈ (trimLoop st opts g).nodes :=
  trimLoopF_keeps st opts _ g x hx hno

/-- Graph for the C10 witness: isolated node 5 beside the edge 1 → 0. -/
def islandWitnessGraph : WGraph :=
  { nodes := [5, 1, 0], edges := [(1, 0, [0])], ndata := [] }

/-- Options for the C10 witness: ObjectTypesLast excludes every type that
occurs, so trim deletes node 1, yet the edge-less node 5 survives. -/
def islandWitnessOpts : AnalyzeOptions :=
  { baseOptions 0 [0] with ObjectTypesLast := some [9] }

/-- Witness for C10: the edge-less node 5 survives a trim that deletes the
outer node 1 for its excluded type. -/
theorem trim_keeps_edgeless_nodes_witness :
    5 ∈ (trimLoop probeStore islandWitnessOpts islandWitnessGraph).nodes :=
  trim_keeps_edgeless_nodes probeStore islandWitnessOpts islandWitnessGraph
    5 (by decide) (by decide)

/-- Filtering away one present element of a duplicate-free list drops its
length by exactly one. -/
theorem filter_ne_length_succ (l : List Nat) (o : Nat) (hnd : l.Nodup)
    (ho : o ∈ l) :
    (l.filter (fun x => decide (x ≠ o))).length + 1 = l.length := by
  induction l with
  | nil => cases ho
  | cons a rest ih =>
    rcases List.nodup_cons.mp hnd with ⟨hna, hndr⟩
    rcases List.mem_cons.mp ho with rfl | hmem
    · have hrest : rest.filter (fun x => decide (x ≠ o)) = rest := by
        apply List.filter_eq_self.mpr
        intro x hx
        exact decide_eq_true (fun hxa => hna (hxa ▸ hx))
      simp [List.filter_cons, hrest]
      intro x hx hxo
      exact hna (hxo ▸ hx)
    · have hne : a ≠ o := fun h => hna (h ▸ hmem)
      have hcons : (a :: rest).filter (fun x => decide (x ≠ o)) =
          a :: rest.filter (fun x => decide (x ≠ o)) := by
        simp [List.filter_cons, hne]
      rw [hcons]
      simp only [List.length_cons]
      have := ih hndr hmem
      omega

/-- DeleteNode keeps the node list duplicate-free. -/
theorem deleteNode_nodup (g : WGraph) (o : Nat) (h : g.nodes.Nodup) :
    (g.deleteNode o).nodes.Nodup :=
  h.filter _

/-- DeleteNode of a present node drops the order by exactly one. -/
theorem deleteNode_order (g : WGraph) (o : Nat) (hnd : g.nodes.Nodup)
    (ho : o ∈ g.nodes) :
    (g.deleteNode o).nodes.length + 1 = g.nodes.length :=
  filter_ne_length_succ _ _ hnd ho

/-- DeleteNode keeps every other node. -/
theorem deleteNode_mem (g : WGraph) (o x : Nat) (hx : x ∈ g.nodes)
    (hne : x ≠ o) : x ∈ (g.deleteNode o).nodes :=
  List.mem_filter.mpr ⟨hx, decide_eq_true hne⟩

/-- Accounting of one prune sweep over a duplicate-free outer snapshot:
the removal counter only grows, the growth is capped by the remaining
budget, each removal drops the order by exactly one, and the node list
stays duplicate-free. -/
theorem pruneScan_spec (extra : Extra) (maxr : Nat) :
    ∀ (l : List Nat) (g : WGraph) (left rem : Nat),
      g.nodes.Nodup → l.Nodup → (∀ o ∈ l, o ∈ g.nodes) → 1 ≤ left →
      rem ≤ (pruneScan extra maxr l g left rem).2 ∧
        (pruneScan extra maxr l g left rem).2 - rem ≤ left ∧
        (pruneScan extra maxr l g left rem).1.nodes.length +
            ((pruneScan extra maxr l g left rem).2 - rem) =
          g.nodes.length ∧
        (pruneScan extra maxr l g left rem).1.nodes.Nodup := by
  intro l
  induction l with
  | nil =>
    intro g left rem hnd _ _ _
    simp only [pruneScan]
    exact ⟨le_rfl, by omega, by omega, hnd⟩
  | cons o rest ih =>
    intro g left rem hnd hlnd hsub hleft
    rcases List.nodup_cons.mp hlnd with ⟨hno, hrnd⟩
    have ho : o ∈ g.nodes := hsub o (List.mem_cons_self o rest)
    by_cases hmax : roundOfD extra o = maxr
    · by_cases hz : left - 1 = 0
      · have hres : pruneScan extra maxr (o :: rest) g left rem =
            (g.deleteNode o, rem + 1) := by
          simp [pruneScan, hmax, hz]
        rw [hres]
        have hord := deleteNode_order g o hnd ho
        refine ⟨Nat.le_succ rem, ?_, ?_, deleteNode_nodup g o hnd⟩
        · show rem + 1 - rem ≤ left
          omega
        · show (g.deleteNode o).nodes.length + (rem + 1 - rem) =
            g.nodes.length
          omega
      · have hres : pruneScan extra maxr (o :: rest) g left rem =
            pruneScan extra maxr rest (g.deleteNode o) (left - 1)
              (rem + 1) := by
          simp [pruneScan, hmax, hz]
        rw [hres]
        have hord := deleteNode_order g o hnd ho
        have hsub' : ∀ x ∈ rest, x ∈ (g.deleteNode o).nodes := by
          intro x hx
          exact deleteNode_mem g o x (hsub x (List.mem_cons_of_mem o hx))
            (fun h => hno (h ▸ hx))
        obtain ⟨i1, i2, i3, i4⟩ := ih (g.deleteNode o) (left - 1) (rem + 1)
          (deleteNode_nodup g o hnd) hrnd hsub' (by omega)
        exact ⟨by omega, by omega, by omega, i4⟩
    · have hres : pruneScan extra maxr (o :: rest) g left rem =
          pruneScan extra maxr rest g left rem := by
        simp [pruneScan, hmax]
      rw [hres]
      exact ih g left rem hnd hrnd
        (fun x hx => hsub x (List.mem_cons_of_mem o hx)) hleft

/-- Accounting of one full prune round. -/
theorem prunePass_spec (extra : Extra) (d : EdgeDirection) (g : WGraph)
    (left : Nat) (hnd : g.nodes.Nodup) (hleft : 1 ≤ left) :
    (prunePass extra d g left).2 ≤ left ∧
      (prunePass extra d g left).1.nodes.length +
          (prunePass extra d g left).2 = g.nodes.length ∧
      (prunePass extra d g left).1.nodes.Nodup := by
  have houter : (outerNodesOf d g).Nodup := by
    cases d
    · exact hnd.filter _
    · exact hnd.filter _
  obtain ⟨i1, i2, i3, i4⟩ := pruneScan_spec extra
    ((outerNodesOf d g).foldl (fun m o => max m (roundOfD extra o)) 0)
    (outerNodesOf d g) g left 0 hnd houter
    (fun o ho => mem_outerNodesOf ho) hleft
  unfold prunePass
  exact ⟨by omega, by omega, i4⟩

/-- The prune loop either warns or removes exactly the requested excess. -/
theorem pruneLoopF_spec (extra : Extra) (d : EdgeDirection) :
    ∀ (fuel : Nat) (g : WGraph) (left : Nat), left < fuel →
      g.nodes.Nodup →
      (pruneLoopF extra d fuel g left).2 = true ∨
        (pruneLoopF extra d fuel g left).1.nodes.length + left =
          g.nodes.length := by
  intro fuel
  induction fuel with
  | zero => intro g left h _; omega
  | succ f ih =>
    intro g left hlt hnd
    rw [pruneLoopF]
    by_cases h0 : left = 0
    · rw [if_pos h0]
      right
      show g.nodes.length + left = g.nodes.length
      omega
    · rw [if_neg h0]
      by_cases hz : (prunePass extra d g left).2 = 0
      · rw [if_pos hz]
        left
        rfl
      · rw [if_neg hz]
        obtain ⟨p1, p2, p3⟩ := prunePass_spec extra d g left hnd (by omega)
        rcases ih (prunePass extra d g left).1
            (left - (prunePass extra d g left).2) (by omega) p3 with
          hw | hacc
        · exact Or.inl hw
        · right
          omega

/-- C6: entered with NodeLimit > 0 and an order above the limit, the
node-budget prune — which repeatedly deletes outer nodes at the current
maximum recorded round — ends with either the warning flag set or the
order down to NodeLimit (given the engine invariant that the working graph
holds no duplicate nodes). -/
theorem node_budget_prune_bound (extra : Extra) (d : EdgeDirection)
    (g : WGraph) (limit : Int) (hnd : g.nodes.Nodup) (hpos : 0 < limit)
    (hover : limit < (g.order : Int)) :
    (pruneLoop extra d g ((g.order : Int) - limit).toNat).2 = true ∨
      ((pruneLoop extra d g
          ((g.order : Int) - limit).toNat).1.order : Int) ≤ limit := by
  unfold pruneLoop
  rcases pruneLoopF_spec extra d (((g.order : Int) - limit).toNat + 1) g
      (((g.order : Int) - limit).toNat) (Nat.lt_succ_self _) hnd with
    hw | hacc
  · exact Or.inl hw
  · right
    unfold WGraph.order at hover hacc ⊢
    omega

/-- Fixture graph for the C6 witness: two nodes, node 1 outer at round 2. -/
def pruneWitnessGraph : WGraph :=
  { nodes := [0, 1], edges := [(1, 0, [0])], ndata := [] }

/-- Fixture state for the C6 witness. -/
def pruneWitnessExtra : Extra :=
  [(0, { CanExpand := 0, processRound := 1,
         accumulatedprobability := Frac.one }),
   (1, { CanExpand := 0, processRound := 2,
         accumulatedprobability := Frac.one })]

/-- Witness for C6: pruning the two-node graph to limit 1 warns or reaches
order 1. -/
theorem node_budget_prune_bound_witness :
    (pruneLoop pruneWitnessExtra EdgeDirection.In pruneWitnessGraph
        ((pruneWitnessGraph.order : Int) - 1).toNat).2 = true ∨
      ((pruneLoop pruneWitnessExtra EdgeDirection.In pruneWitnessGraph
          ((pruneWitnessGraph.order : Int) - 1).toNat).1.order : Int) ≤ 1 :=
  node_budget_prune_bound pruneWitnessExtra EdgeDirection.In
    pruneWitnessGraph 1 (by decide) (by decide) (by decide)

/-- Witness for C7: a concrete Everyone-SID node with pending round state is
skipped without touching the state. -/
theorem aueo_guard_skips_expansion_witness :
    processOneNode
        { objects := [0], otype := fun _ => 0, sid := fun _ => everyoneSID,
          attrInt := fun _ _ => none, edgeList := [(1, 0, [0])],
          prob := fun _ _ _ => 100 }
        (baseOptions 0 [0]) none 1 [0] none
        ({ nodes := [0], edges := [], ndata := [] },
          [(0, { CanExpand := 0, processRound := 1,
                 accumulatedprobability := Frac.one })]) 0 =
      ({ nodes := [0], edges := [], ndata := [] },
        [(0, { CanExpand := 0, processRound := 1,
               accumulatedprobability := Frac.one })]) :=
  aueo_guard_skips_expansion _ _ _ _ _ _ _ _ _ rfl rfl (Or.inl rfl)

end Adalanche
